import Mathlib

/-!
Shallow embedding of the admin-action store and dispatcher
(src/services/admin_action_service.py, src/scheduler/admin_action_worker.py)
and of the summary-settings reconciliation loop
(src/scheduler/summary_watcher.py) of TelegramForwarder, with theorems
settling the specification's claims about them.
-/

namespace TGF

/-- One row of the `admin_actions` table (see `ensure_actions_table` in
src/services/admin_action_service.py). -/
structure ActionRow where
  id : Nat
  action : String
  rule_id : Option Int
  payload : Option String
  status : String
  error : Option String
  created_at : Nat
  processed_at : Option Nat
  deriving Repr, DecidableEq

/-- The `admin_actions` table together with the AUTOINCREMENT counter. -/
structure Store where
  rows : List ActionRow
  nextId : Nat
  deriving Repr, DecidableEq

def Store.empty : Store := ⟨[], 1⟩

/-- `enqueue_action` (src/services/admin_action_service.py lines 36-60):
INSERT a fresh pending row, return its id. -/
def enqueue_action (s : Store) (action : String) (rule_id : Option Int)
    (payload_text : String) (created_at : Nat) : Store × Nat :=
  (⟨s.rows ++ [⟨s.nextId, action, rule_id, some payload_text, "pending", none,
      created_at, none⟩], s.nextId + 1⟩, s.nextId)

/-- The conditional claim UPDATE inside `_process_one_action`
(src/scheduler/admin_action_worker.py lines 101-111):
SET status=processing, processed_at=t, error=NULL WHERE id=i AND
status=pending. -/
def claim_action (s : Store) (i : Nat) (t : Nat) : Store :=
  ⟨s.rows.map (fun r =>
      if r.id = i ∧ r.status = "pending" then
        { r with status := "processing", processed_at := some t, error := none }
      else r),
    s.nextId⟩

/-- `_mark_action_done` (lines 152-162): unconditional on the current status. -/
def mark_action_done (s : Store) (i : Nat) : Store :=
  ⟨s.rows.map (fun r =>
      if r.id = i then { r with status := "done", error := none } else r),
    s.nextId⟩

/-- `_mark_action_error` (lines 165-175): unconditional on the current status;
stores the message truncated to 2000 characters. -/
def mark_action_error (s : Store) (i : Nat) (error : String) : Store :=
  ⟨s.rows.map (fun r =>
      if r.id = i then { r with status := "error", error := some (error.take 2000) }
      else r),
    s.nextId⟩

def rowOf (s : Store) (i : Nat) : Option ActionRow :=
  s.rows.find? (fun r => r.id == i)

def statusOf (s : Store) (i : Nat) : Option String :=
  (rowOf s i).map ActionRow.status

def errorOf (s : Store) (i : Nat) : Option (Option String) :=
  (rowOf s i).map ActionRow.error

/-- Result of awaiting a collaborator call: it returns or raises. -/
inductive HandlerResult where
  | ok : HandlerResult
  | raises (msg : String) : HandlerResult
  deriving Repr, DecidableEq

/-- The collaborators given to `run_admin_action_worker`. Each `hasX` models
the source's fitness check `x and hasattr(x, "method")`; each function field
gives the result of the corresponding awaited call. -/
structure WorkerEnv where
  hasExecuteSummary : Bool
  hasExecuteAllSummaries : Bool
  hasSyncToServer : Bool
  hasUpdateAllChats : Bool
  executeSummary : Int → HandlerResult
  executeAllSummaries : HandlerResult
  syncToServer : Int → HandlerResult
  updateAllChats : HandlerResult

/-- A performed collaborator invocation. -/
inductive HandlerCall where
  | executeSummary (rule_id : Int)
  | executeAllSummaries
  | syncToServer (rule_id : Int)
  | updateAllChats
  deriving Repr, DecidableEq

/-- Parsed JSON payload. No handler in admin_action_worker.py ever reads the
payload, so its entries are modelled opaquely as string pairs. -/
abbrev Payload := List (String × String)

inductive Outcome where
  | done : Outcome
  | error (msg : String) : Outcome
  deriving Repr, DecidableEq

/-- The try-block of `_process_one_action` (lines 115-149): route the action
to its handler. Python's `if not rule_id` is true both for NULL and for 0. -/
def dispatch_action (env : WorkerEnv) (action : String) (rule_id : Option Int)
    (payload : Payload) : Outcome × List HandlerCall :=
  if action = "summary_now" then
    match rule_id with
    | none => (.error "rule_id 不能为空", [])
    | some r =>
      if r = 0 then (.error "rule_id 不能为空", [])
      else if env.hasExecuteSummary = false then (.error "scheduler 未就绪", [])
      else
        match env.executeSummary r with
        | .ok => (.done, [.executeSummary r])
        | .raises m => (.error m, [.executeSummary r])
  else if action = "summary_all_now" then
    if env.hasExecuteAllSummaries = false then (.error "scheduler 未就绪", [])
    else
      match env.executeAllSummaries with
      | .ok => (.done, [.executeAllSummaries])
      | .raises m => (.error m, [.executeAllSummaries])
  else if action = "ufb_sync" then
    match rule_id with
    | none => (.error "rule_id 不能为空", [])
    | some r =>
      if r = 0 then (.error "rule_id 不能为空", [])
      else if env.hasSyncToServer = false then (.error "db_ops 未就绪", [])
      else
        match env.syncToServer r with
        | .ok => (.done, [.syncToServer r])
        | .raises m => (.error m, [.syncToServer r])
  else if action = "update_chats_now" then
    if env.hasUpdateAllChats = false then (.error "chat_updater 未就绪", [])
    else
      match env.updateAllChats with
      | .ok => (.done, [.updateAllChats])
      | .raises m => (.error m, [.updateAllChats])
  else (.error ("未知 action: " ++ action), [])

/-- `_process_one_action` (lines 86-149): the conditional claim UPDATE (whose
row count the source never checks), the handler dispatch, then an
unconditional terminal UPDATE via `_mark_action_done` / `_mark_action_error`. -/
def process_one_action (env : WorkerEnv) (s : Store) (action_id : Nat)
    (action : String) (rule_id : Option Int) (payload : Payload)
    (processed_at : Nat) : Store × List HandlerCall :=
  let s1 := claim_action s action_id processed_at
  match dispatch_action env action rule_id payload with
  | (.done, calls) => (mark_action_done s1 action_id, calls)
  | (.error m, calls) => (mark_action_error s1 action_id m, calls)

/-- Python's `x or default` on an optional string (the empty string is falsy). -/
def pyOrStr (v : Option String) (d : String) : String :=
  match v with
  | none => d
  | some s => if s = "" then d else s

/-- Lines 61-66 of `run_admin_action_worker`: payload_text = row[3] or "{}",
then json.loads with a fallback to the empty dict on any parse failure.
`jsonLoads` stands for the external json.loads. -/
def resolvePayload (jsonLoads : String → Option Payload)
    (payload_text : Option String) : Payload :=
  (jsonLoads (pyOrStr payload_text "\x7b\x7d")).getD []

/-- The per-row body of the polling loop (lines 57-76) over a claimed batch. -/
def runBatch (env : WorkerEnv) (jsonLoads : String → Option Payload)
    (s : Store) (batch : List ActionRow) (t : Nat) : Store × List HandlerCall :=
  match batch with
  | [] => (s, [])
  | r :: rest =>
    let one := process_one_action env s r.id r.action r.rule_id
      (resolvePayload jsonLoads r.payload) t
    let more := runBatch env jsonLoads one.1 rest t
    (more.1, one.2 ++ more.2)

def insertById (r : ActionRow) : List ActionRow → List ActionRow
  | [] => [r]
  | x :: xs => if r.id ≤ x.id then r :: x :: xs else x :: insertById r xs

def sortById : List ActionRow → List ActionRow
  | [] => []
  | x :: xs => insertById x (sortById xs)

/-- The poll SELECT (lines 38-49): WHERE status = pending ORDER BY id ASC
LIMIT batch_size. -/
def selectPending (s : Store) (limit : Nat) : List ActionRow :=
  (sortById (s.rows.filter (fun r => r.status == "pending"))).take limit

/-- One iteration of `run_admin_action_worker`'s while-loop (lines 33-83) on
its normal path: fetch a batch; if it is empty, sleep (third component true)
and loop; otherwise process every row and loop again WITHOUT sleeping. -/
def run_admin_action_worker_iteration (env : WorkerEnv)
    (jsonLoads : String → Option Payload) (s : Store) (batch_size : Nat)
    (t : Nat) : Store × List HandlerCall × Bool :=
  let rows := selectPending s batch_size
  if rows.isEmpty then (s, [], true)
  else
    let out := runBatch env jsonLoads s rows t
    (out.1, out.2, false)

/-- The operations through which the repository mutates `admin_actions` rows. -/
inductive StoreOp where
  | enqueue (action : String) (rule_id : Option Int) (payload_text : String)
      (created_at : Nat)
  | claim (id : Nat) (processed_at : Nat)
  | markDone (id : Nat)
  | markError (id : Nat) (msg : String)

def applyOp (s : Store) : StoreOp → Store
  | .enqueue a rid p c => (enqueue_action s a rid p c).1
  | .claim i t => claim_action s i t
  | .markDone i => mark_action_done s i
  | .markError i m => mark_action_error s i m

def applyOps (s : Store) : List StoreOp → Store
  | [] => s
  | op :: rest => applyOps (applyOp s op) rest

inductive Reachable : Store → Prop where
  | empty : Reachable Store.empty
  | step : ∀ {s : Store} (op : StoreOp), Reachable s → Reachable (applyOp s op)

/-- The status transitions that the specification declares legal. -/
def specAllowedTransition (a b : String) : Prop :=
  (a = "pending" ∧ b = "processing") ∨
  (a = "processing" ∧ (b = "done" ∨ b = "error"))

/-- A store holding one record that another claimant has already advanced to
processing after this dispatcher's poll selected it. -/
def raceStore : Store :=
  ⟨[⟨1, "summary_all_now", none, some "\x7b\x7d", "processing", none, 0, some 5⟩], 2⟩

/-- All collaborators present and succeeding. -/
def readyEnv : WorkerEnv :=
  ⟨true, true, true, true, fun _ => .ok, .ok, fun _ => .ok, .ok⟩

/-- C1: the claim says a selected record whose conditional pending→processing
UPDATE fails is silently excluded: its handler is not invoked and its terminal
status is not rewritten.  The source never checks the UPDATE's row count: on a
record already in status processing the claim UPDATE changes nothing, yet the
handler is still invoked and the record is still rewritten to done. -/
theorem failed_claim_still_processed :
    statusOf raceStore 1 = some "processing" ∧
    statusOf (claim_action raceStore 1 7) 1 = some "processing" ∧
    (process_one_action readyEnv raceStore 1 "summary_all_now" none [] 7).2 =
      [HandlerCall.executeAllSummaries] ∧
    statusOf (process_one_action readyEnv raceStore 1 "summary_all_now" none [] 7).1 1 =
      some "done" := by
  refine ⟨by decide, by decide, by decide, by decide⟩

/-- C2 counterexample: `markDone` updates the status unconditionally, so the
operation sequence enqueue-then-markDone performs a direct pending→done
transition, which is outside the set the claim declares to be the only legal
transitions. -/
theorem pending_jumps_directly_to_done :
    Reachable (applyOp Store.empty (.enqueue "summary_now" (some 5) "\x7b\x7d" 0)) ∧
    statusOf (applyOp Store.empty (.enqueue "summary_now" (some 5) "\x7b\x7d" 0)) 1 =
      some "pending" ∧
    statusOf (applyOp (applyOp Store.empty (.enqueue "summary_now" (some 5) "\x7b\x7d" 0))
        (.markDone 1)) 1 = some "done" ∧
    ¬ specAllowedTransition "pending" "done" := by
  refine ⟨Reachable.step _ Reachable.empty, by decide, by decide, ?_⟩
  unfold specAllowedTransition
  decide

/-- A row of the summary-settings query in `watch_summary_settings`
(src/scheduler/summary_watcher.py lines 29-39). Optional fields model SQL
NULL; the Python bool()/`or` coercions are applied exactly where the source
applies them. -/
structure RuleRow where
  id : Nat
  is_summary : Option Bool
  summary_time : Option String
  summary_prompt : Option String
  is_top_summary : Option Bool
  deriving Repr, DecidableEq

/-- Python's bool() on an optional boolean column value. -/
def pyBool (b : Option Bool) : Bool := b.getD false

structure SummarySig where
  is_summary : Bool
  summary_time : String
  summary_prompt : String
  is_top_summary : Bool
  deriving Repr, DecidableEq

/-- Lines 46-51: the signature tuple recorded per rule. -/
def mkSignature (r : RuleRow) : SummarySig :=
  ⟨pyBool r.is_summary, pyOrStr r.summary_time "", pyOrStr r.summary_prompt "",
    pyBool r.is_top_summary⟩

/-- One `scheduler.schedule_rule(SimpleNamespace(id, is_summary, summary_time))`
call (lines 66-72 and 80-82). -/
structure SchedCall where
  id : Nat
  is_summary : Bool
  summary_time : String
  deriving Repr, DecidableEq

/-- The `last_signatures` dict, as an association list with unique keys. -/
abbrev SigMap := List (Nat × SummarySig)

/-- Dict assignment `last_signatures[rule_id] = signature`. -/
def insertSig : SigMap → Nat → SummarySig → SigMap
  | [], k, v => [(k, v)]
  | kv :: rest, k, v =>
    if kv.1 = k then (k, v) :: rest else kv :: insertSig rest k v

/-- Dict lookup `last_signatures.get(rule_id)`. -/
def lookupSig : SigMap → Nat → Option SummarySig
  | [], _ => none
  | kv :: rest, k => if kv.1 = k then some kv.2 else lookupSig rest k

def sigKeys (m : SigMap) : List Nat := m.map Prod.fst

/-- The per-row diffing loop (lines 44-72): during bootstrap only record the
signature; afterwards skip unchanged rows and, on a new or changed signature,
record it and emit a schedule_rule call carrying the row's enabled flag and
its fire time defaulted to "00:00" when falsy. -/
def processRows (bootDone : Bool) : SigMap → List RuleRow → SigMap × List SchedCall
  | last, [] => (last, [])
  | last, row :: rest =>
    let sig := mkSignature row
    if bootDone = false then
      processRows bootDone (insertSig last row.id sig) rest
    else if lookupSig last row.id = some sig then
      processRows bootDone last rest
    else
      let out := processRows bootDone (insertSig last row.id sig) rest
      (out.1,
        (⟨row.id, pyBool row.is_summary, pyOrStr row.summary_time "00:00"⟩ :
          SchedCall) :: out.2)

/-- The removal pass (lines 74-82), executed only once initialized: pop every
tracked id absent from the current read and, when scheduler.tasks holds a job
for it, emit a disabling schedule_rule call.  (Python iterates the removed
ids in nondeterministic set order; the claims checked here only count the
calls issued per rule id, which is order-independent.) -/
def removalPhase (bootDone : Bool) (last : SigMap) (currentIds : List Nat)
    (tasks : List Nat) : SigMap × List SchedCall :=
  if bootDone then
    let removed := (sigKeys last).filter (fun k => !(currentIds.contains k))
    (last.filter (fun kv => currentIds.contains kv.1),
      (removed.filter (fun k => tasks.contains k)).map
        (fun k => (⟨k, false, "00:00"⟩ : SchedCall)))
  else (last, [])

/-- The watcher's in-memory state: `last_signatures` and the `initialized`
flag of `watch_summary_settings`. -/
structure WatcherState where
  last : SigMap
  bootDone : Bool
  deriving Repr, DecidableEq

/-- One iteration of `watch_summary_settings`' while-loop (lines 25-85) on its
normal path: read the rows, run the per-row diffing loop (with bootstrap
suppression), run the removal pass, then set initialized := true.  `tasks`
lists the rule ids for which scheduler.tasks currently holds a job. -/
def watch_summary_settings_cycle (st : WatcherState) (rows : List RuleRow)
    (tasks : List Nat) : WatcherState × List SchedCall :=
  let p := processRows st.bootDone st.last rows
  let q := removalPhase st.bootDone p.1 (rows.map RuleRow.id) tasks
  (⟨q.1, true⟩, p.2 ++ q.2)

def outcomeStatus : Outcome → String
  | .done => "done"
  | .error _ => "error"

def outcomeError : Outcome → Option String
  | .done => none
  | .error m => some (m.take 2000)

theorem find?_map_id_pres (f : ActionRow → ActionRow)
    (hf : ∀ r, (f r).id = r.id) (rows : List ActionRow) (i : Nat) :
    (rows.map f).find? (fun r => r.id == i) =
      (rows.find? (fun r => r.id == i)).map f := by
  induction rows with
  | nil => rfl
  | cons a rest ih =>
    simp only [List.map_cons, List.find?]
    rw [hf a]
    cases h : (a.id == i) <;> simp [h, ih]

theorem rowOf_some_id {s : Store} {j : Nat} {r : ActionRow}
    (h : rowOf s j = some r) : r.id = j := by
  have := List.find?_some h
  simpa using this

theorem rowOf_claim_action (s : Store) (i t j : Nat) :
    rowOf (claim_action s i t) j = (rowOf s j).map (fun r =>
      if r.id = i ∧ r.status = "pending" then
        { r with status := "processing", processed_at := some t, error := none }
      else r) := by
  unfold rowOf claim_action
  exact find?_map_id_pres _ (fun r => by split <;> rfl) s.rows j

theorem rowOf_mark_action_done (s : Store) (i j : Nat) :
    rowOf (mark_action_done s i) j = (rowOf s j).map (fun r =>
      if r.id = i then { r with status := "done", error := none } else r) := by
  unfold rowOf mark_action_done
  exact find?_map_id_pres _ (fun r => by split <;> rfl) s.rows j

theorem rowOf_mark_action_error (s : Store) (i : Nat) (m : String) (j : Nat) :
    rowOf (mark_action_error s i m) j = (rowOf s j).map (fun r =>
      if r.id = i then { r with status := "error", error := some (m.take 2000) }
      else r) := by
  unfold rowOf mark_action_error
  exact find?_map_id_pres _ (fun r => by split <;> rfl) s.rows j

theorem rowOf_claim_action_other (s : Store) (i t j : Nat) (h : j ≠ i) :
    rowOf (claim_action s i t) j = rowOf s j := by
  rw [rowOf_claim_action]
  cases hr : rowOf s j with
  | none => rfl
  | some r =>
    have hid := rowOf_some_id hr
    simp [hid, h]

theorem rowOf_mark_action_done_other (s : Store) (i j : Nat) (h : j ≠ i) :
    rowOf (mark_action_done s i) j = rowOf s j := by
  rw [rowOf_mark_action_done]
  cases hr : rowOf s j with
  | none => rfl
  | some r =>
    have hid := rowOf_some_id hr
    simp [hid, h]

theorem rowOf_mark_action_error_other (s : Store) (i : Nat) (m : String)
    (j : Nat) (h : j ≠ i) :
    rowOf (mark_action_error s i m) j = rowOf s j := by
  rw [rowOf_mark_action_error]
  cases hr : rowOf s j with
  | none => rfl
  | some r =>
    have hid := rowOf_some_id hr
    simp [hid, h]

/-- Whatever the claim UPDATE did, the terminal UPDATE overwrites the
record's status and error with the dispatch outcome. -/
theorem process_one_action_self (env : WorkerEnv) (s : Store) (a : Nat)
    (act : String) (rid : Option Int) (p : Payload) (t : Nat) :
    statusOf (process_one_action env s a act rid p t).1 a =
      (statusOf s a).map (fun _ => outcomeStatus (dispatch_action env act rid p).1) ∧
    errorOf (process_one_action env s a act rid p t).1 a =
      (errorOf s a).map (fun _ => outcomeError (dispatch_action env act rid p).1) := by
  unfold process_one_action
  cases hd : dispatch_action env act rid p with
  | mk o calls =>
    cases o with
    | done =>
      simp only [statusOf, errorOf, rowOf_mark_action_done, rowOf_claim_action]
      cases hr : rowOf s a with
      | none => simp [outcomeStatus, outcomeError]
      | some r =>
        have hid := rowOf_some_id hr
        constructor <;> · simp [hid, outcomeStatus, outcomeError]; split <;> simp
    | error m =>
      simp only [statusOf, errorOf, rowOf_mark_action_error, rowOf_claim_action]
      cases hr : rowOf s a with
      | none => simp [outcomeStatus, outcomeError]
      | some r =>
        have hid := rowOf_some_id hr
        constructor <;> · simp [hid, outcomeStatus, outcomeError]; split <;> simp

theorem process_one_action_frame (env : WorkerEnv) (s : Store) (a : Nat)
    (act : String) (rid : Option Int) (p : Payload) (t : Nat) (j : Nat)
    (h : j ≠ a) :
    rowOf (process_one_action env s a act rid p t).1 j = rowOf s j := by
  unfold process_one_action
  cases hd : dispatch_action env act rid p with
  | mk o calls =>
    cases o with
    | done =>
      simp only
      rw [rowOf_mark_action_done_other _ _ _ h, rowOf_claim_action_other _ _ _ _ h]
    | error m =>
      simp only
      rw [rowOf_mark_action_error_other _ _ _ _ h, rowOf_claim_action_other _ _ _ _ h]

theorem runBatch_frame (env : WorkerEnv) (jl : String → Option Payload)
    (batch : List ActionRow) : ∀ (s : Store) (t j : Nat),
    (∀ r ∈ batch, r.id ≠ j) →
    rowOf (runBatch env jl s batch t).1 j = rowOf s j := by
  induction batch with
  | nil => intro s t j _; rfl
  | cons x rest ih =>
    intro s t j h
    simp only [runBatch]
    rw [ih _ t j (fun r hr => h r (List.mem_cons_of_mem x hr))]
    exact process_one_action_frame env s x.id x.action x.rule_id _ t j
      (fun hj => h x (List.mem_cons_self x rest) hj.symm)

/-- The dispatch outcome of one batch row, depending only on that row's own
columns and the collaborators. -/
def recOutcome (env : WorkerEnv) (jl : String → Option Payload)
    (r : ActionRow) : Outcome :=
  (dispatch_action env r.action r.rule_id (resolvePayload jl r.payload)).1

/-- Each record of a batch ends at exactly the status and error text of its
own dispatch outcome, independent of what the other records did. -/
theorem runBatch_statusOf (env : WorkerEnv) (jl : String → Option Payload)
    (batch : List ActionRow) : ∀ (s : Store) (t : Nat) (r : ActionRow),
    (batch.map ActionRow.id).Nodup → r ∈ batch → (rowOf s r.id).isSome = true →
    statusOf (runBatch env jl s batch t).1 r.id =
      some (outcomeStatus (recOutcome env jl r)) ∧
    errorOf (runBatch env jl s batch t).1 r.id =
      some (outcomeError (recOutcome env jl r)) := by
  induction batch with
  | nil => intro s t r _ hmem _; exact absurd hmem (List.not_mem_nil r)
  | cons x rest ih =>
    intro s t r hnd hmem hsome
    have hnd' : (∀ y ∈ rest, ¬ y.id = x.id) ∧ (rest.map ActionRow.id).Nodup := by
      simpa using hnd
    rcases List.mem_cons.mp hmem with hrx | hrrest
    · subst hrx
      have hne : ∀ y ∈ rest, y.id ≠ r.id := fun y hy => hnd'.1 y hy
      simp only [runBatch]
      have hframe := runBatch_frame env jl rest
        (process_one_action env s r.id r.action r.rule_id (resolvePayload jl r.payload) t).1
        t r.id hne
      have hself := process_one_action_self env s r.id r.action r.rule_id
        (resolvePayload jl r.payload) t
      cases hr : rowOf s r.id with
      | none => rw [hr] at hsome; simp at hsome
      | some row =>
        constructor
        · show statusOf _ r.id = _
          unfold statusOf
          rw [hframe]
          have := hself.1
          unfold statusOf at this
          rw [this, hr]
          rfl
        · show errorOf _ r.id = _
          unfold errorOf
          rw [hframe]
          have := hself.2
          unfold errorOf at this
          rw [this, hr]
          rfl
    · have hne : r.id ≠ x.id := hnd'.1 r hrrest
      simp only [runBatch]
      have hpres : rowOf (process_one_action env s x.id x.action x.rule_id
          (resolvePayload jl x.payload) t).1 r.id = rowOf s r.id :=
        process_one_action_frame env s x.id x.action x.rule_id _ t r.id hne
      exact ih _ t r hnd'.2 hrrest (by rw [hpres]; exact hsome)

/-- Unknown kinds fall through every branch to line 145. -/
theorem dispatch_action_unknown (env : WorkerEnv) (act : String)
    (rid : Option Int) (p : Payload)
    (h1 : act ≠ "summary_now") (h2 : act ≠ "summary_all_now")
    (h3 : act ≠ "ufb_sync") (h4 : act ≠ "update_chats_now") :
    dispatch_action env act rid p = (.error ("未知 action: " ++ act), []) := by
  unfold dispatch_action
  rw [if_neg h1, if_neg h2, if_neg h3, if_neg h4]

/-- Lines 116-118 and 128-130: `if not rule_id` rejects both NULL and 0. -/
theorem dispatch_action_missing_rule_id (env : WorkerEnv) (act : String)
    (rid : Option Int) (p : Payload)
    (hk : act = "summary_now" ∨ act = "ufb_sync")
    (hr : rid = none ∨ rid = some 0) :
    dispatch_action env act rid p = (.error "rule_id 不能为空", []) := by
  rcases hk with hk | hk <;> subst hk <;>
    rcases hr with hr | hr <;> subst hr <;> simp [dispatch_action]

/-- The record's kind reaches its handler (all validation and fitness checks
pass) and the awaited collaborator call raises with message `msg`. -/
def handlerRaises (env : WorkerEnv) (action : String) (rule_id : Option Int)
    (msg : String) : Prop :=
  (action = "summary_now" ∧ ∃ r, rule_id = some r ∧ r ≠ 0 ∧
      env.hasExecuteSummary = true ∧ env.executeSummary r = .raises msg) ∨
  (action = "summary_all_now" ∧ env.hasExecuteAllSummaries = true ∧
      env.executeAllSummaries = .raises msg) ∨
  (action = "ufb_sync" ∧ ∃ r, rule_id = some r ∧ r ≠ 0 ∧
      env.hasSyncToServer = true ∧ env.syncToServer r = .raises msg) ∨
  (action = "update_chats_now" ∧ env.hasUpdateAllChats = true ∧
      env.updateAllChats = .raises msg)

theorem dispatch_action_raises (env : WorkerEnv) (act : String)
    (rid : Option Int) (msg : String) (p : Payload)
    (h : handlerRaises env act rid msg) :
    (dispatch_action env act rid p).1 = .error msg := by
  rcases h with ⟨hk, r, hrid, hr0, hhas, hres⟩ | ⟨hk, hhas, hres⟩ |
    ⟨hk, r, hrid, hr0, hhas, hres⟩ | ⟨hk, hhas, hres⟩ <;> subst hk
  · subst hrid; simp [dispatch_action, hr0, hhas, hres]
  · simp [dispatch_action, hhas, hres]
  · subst hrid; simp [dispatch_action, hr0, hhas, hres]
  · simp [dispatch_action, hhas, hres]

theorem find?_append_some {p : ActionRow → Bool} {l1 : List ActionRow}
    {a : ActionRow} (l2 : List ActionRow) (h : l1.find? p = some a) :
    (l1 ++ l2).find? p = some a := by
  induction l1 with
  | nil => simp [List.find?] at h
  | cons x xs ih =>
    cases hx : p x with
    | true =>
      rw [List.find?_cons_of_pos _ hx] at h
      rw [List.cons_append, List.find?_cons_of_pos _ hx]
      exact h
    | false =>
      have hx2 : ¬ p x = true := by simp [hx]
      rw [List.find?_cons_of_neg _ hx2] at h
      rw [List.cons_append, List.find?_cons_of_neg _ hx2]
      exact ih h

/-- One store operation moves a record's status only along claim's
pending→processing edge, or to a terminal status, or not at all. -/
theorem applyOp_status_step (s : Store) (op : StoreOp) (i : Nat) (st : String)
    (h : statusOf s i = some st) :
    ∃ st2, statusOf (applyOp s op) i = some st2 ∧
      (st2 = st ∨ (st = "pending" ∧ st2 = "processing") ∨
        st2 = "done" ∨ st2 = "error") := by
  obtain ⟨r, hr, hrst⟩ : ∃ r, rowOf s i = some r ∧ r.status = st := by
    unfold statusOf at h
    cases hrr : rowOf s i with
    | none => rw [hrr] at h; simp at h
    | some r => rw [hrr] at h; exact ⟨r, rfl, by simpa using h⟩
  cases op with
  | enqueue a rid pt c =>
    refine ⟨st, ?_, Or.inl rfl⟩
    show statusOf ⟨s.rows ++ [_], _⟩ i = some st
    unfold statusOf rowOf
    unfold rowOf at hr
    rw [find?_append_some _ hr]
    simp [hrst]
  | claim j t =>
    by_cases hij : i = j
    · subst hij
      have hid := rowOf_some_id hr
      by_cases hp : r.status = "pending"
      · refine ⟨"processing", ?_, Or.inr (Or.inl ⟨by rw [← hrst, hp], rfl⟩)⟩
        show statusOf (claim_action s i t) i = _
        unfold statusOf
        rw [rowOf_claim_action, hr]
        simp [hid, hp]
      · refine ⟨st, ?_, Or.inl rfl⟩
        show statusOf (claim_action s i t) i = _
        unfold statusOf
        rw [rowOf_claim_action, hr]
        rw [hrst] at hp
        simp [hid, hrst, hp]
    · refine ⟨st, ?_, Or.inl rfl⟩
      show statusOf (claim_action s j t) i = _
      unfold statusOf
      rw [rowOf_claim_action_other s j t i hij, hr]
      simp [hrst]
  | markDone j =>
    by_cases hij : i = j
    · subst hij
      refine ⟨"done", ?_, Or.inr (Or.inr (Or.inl rfl))⟩
      show statusOf (mark_action_done s i) i = _
      unfold statusOf
      rw [rowOf_mark_action_done, hr]
      have hid := rowOf_some_id hr
      simp [hid]
    · refine ⟨st, ?_, Or.inl rfl⟩
      show statusOf (mark_action_done s j) i = _
      unfold statusOf
      rw [rowOf_mark_action_done_other s j i hij, hr]
      simp [hrst]
  | markError j m =>
    by_cases hij : i = j
    · subst hij
      refine ⟨"error", ?_, Or.inr (Or.inr (Or.inr rfl))⟩
      show statusOf (mark_action_error s i m) i = _
      unfold statusOf
      rw [rowOf_mark_action_error, hr]
      have hid := rowOf_some_id hr
      simp [hid]
    · refine ⟨st, ?_, Or.inl rfl⟩
      show statusOf (mark_action_error s j m) i = _
      unfold statusOf
      rw [rowOf_mark_action_error_other s j m i hij, hr]
      simp [hrst]

theorem applyOps_status_mono (ops : List StoreOp) :
    ∀ (s : Store) (i : Nat) (st : String), statusOf s i = some st →
    ∃ st2, statusOf (applyOps s ops) i = some st2 ∧
      ((st = "done" ∨ st = "error") → (st2 = "done" ∨ st2 = "error")) ∧
      (st ≠ "pending" → st2 ≠ "pending") := by
  induction ops with
  | nil => intro s i st h; exact ⟨st, h, fun x => x, fun x => x⟩
  | cons op rest ih =>
    intro s i st h
    obtain ⟨st1, h1, hcase⟩ := applyOp_status_step s op i st h
    obtain ⟨st2, h2, hterm, hpend⟩ := ih (applyOp s op) i st1 h1
    refine ⟨st2, h2, ?_, ?_⟩
    · intro hst
      apply hterm
      rcases hcase with rfl | ⟨hp, hq⟩ | rfl | rfl
      · exact hst
      · subst hp
        rcases hst with h' | h' <;> exact absurd h' (by decide)
      · exact Or.inl rfl
      · exact Or.inr rfl
    · intro hst
      apply hpend
      rcases hcase with rfl | ⟨hp, hq⟩ | rfl | rfl
      · exact hst
      · rw [hq]; decide
      · decide
      · decide

/-- C2 (amended): under enqueue, claim, markDone and markError, no operation
sequence takes a record from done or error back to pending or processing, and
a record that has left pending never returns to it.  (The claim's stronger
assertion that pending→processing→{done,error} are the only possible
transitions fails: see `pending_jumps_directly_to_done`.) -/
theorem status_never_regresses (s : Store) (ops : List StoreOp) (i : Nat)
    (st st2 : String) (hreach : Reachable s)
    (h1 : statusOf s i = some st)
    (h2 : statusOf (applyOps s ops) i = some st2) :
    ((st = "done" ∨ st = "error") → (st2 = "done" ∨ st2 = "error")) ∧
    (st ≠ "pending" → st2 ≠ "pending") := by
  obtain ⟨st2', h2', hterm, hpend⟩ := applyOps_status_mono ops s i st h1
  have heq : st2 = st2' := by
    rw [h2] at h2'
    exact Option.some.inj h2'
  subst heq
  exact ⟨hterm, hpend⟩

/-- A reachable store whose single record has reached done. -/
def doneStore : Store :=
  applyOp (applyOp (applyOp Store.empty
    (.enqueue "summary_now" (some 5) "\x7b\x7d" 0)) (.claim 1 3)) (.markDone 1)

/-- C2 witness: from done, a markError/claim sequence can only land on a
terminal status, never back on pending or processing. -/
theorem status_never_regresses_witness :
    statusOf doneStore 1 = some "done" ∧
    statusOf (applyOps doneStore [.markError 1 "boom", .claim 1 9]) 1 = some "error" ∧
    ((("done" = "done" ∨ "done" = "error") → ("error" = "done" ∨ "error" = "error")) ∧
      ("done" ≠ "pending" → "error" ≠ "pending")) :=
  ⟨by decide, by decide,
    status_never_regresses doneStore [.markError 1 "boom", .claim 1 9] 1 "done" "error"
      (Reachable.step _ (Reachable.step _ (Reachable.step _ Reachable.empty)))
      (by decide) (by decide)⟩

theorem mem_insertById {r x : ActionRow} {l : List ActionRow} :
    x ∈ insertById r l ↔ x = r ∨ x ∈ l := by
  induction l with
  | nil => simp [insertById]
  | cons y ys ih =>
    unfold insertById
    split
    · simp [List.mem_cons]
    · simp only [List.mem_cons, ih]
      tauto

theorem mem_sortById {x : ActionRow} {l : List ActionRow} :
    x ∈ sortById l ↔ x ∈ l := by
  induction l with
  | nil => simp [sortById]
  | cons y ys ih => simp [sortById, mem_insertById, ih]

theorem pairwise_insertById (r : ActionRow) (l : List ActionRow)
    (h : l.Pairwise (fun a b => a.id ≤ b.id)) :
    (insertById r l).Pairwise (fun a b => a.id ≤ b.id) := by
  induction l with
  | nil => simp [insertById]
  | cons x xs ih =>
    rw [List.pairwise_cons] at h
    unfold insertById
    split
    · rename_i hle
      rw [List.pairwise_cons]
      refine ⟨?_, List.pairwise_cons.mpr h⟩
      intro b hb
      rcases List.mem_cons.mp hb with rfl | hb2
      · exact hle
      · exact le_trans hle (h.1 b hb2)
    · rename_i hgt
      rw [List.pairwise_cons]
      refine ⟨?_, ih h.2⟩
      intro b hb
      rcases mem_insertById.mp hb with rfl | hb2
      · exact le_of_not_le hgt
      · exact h.1 b hb2

theorem pairwise_sortById (l : List ActionRow) :
    (sortById l).Pairwise (fun a b => a.id ≤ b.id) := by
  induction l with
  | nil => simp [sortById]
  | cons x xs ih => exact pairwise_insertById x _ ih

/-- C6 (amended): each iteration's batch is bounded by batch_size, holds only
pending records, is ordered by id ascending and is processed within the
iteration — but the iteration sleeps exactly when the batch is empty: after a
non-empty batch the next poll starts immediately with no sleep. -/
theorem dispatcher_iteration_shape (env : WorkerEnv)
    (jl : String → Option Payload) (s : Store) (n t : Nat) :
    (selectPending s n).length ≤ n ∧
    (∀ r ∈ selectPending s n, r.status = "pending") ∧
    (selectPending s n).Pairwise (fun a b => a.id ≤ b.id) ∧
    (run_admin_action_worker_iteration env jl s n t).2.2 =
      (selectPending s n).isEmpty ∧
    (run_admin_action_worker_iteration env jl s n t).2.1 =
      (if (selectPending s n).isEmpty then []
        else (runBatch env jl s (selectPending s n) t).2) := by
  refine ⟨?_, ?_, ?_, ?_, ?_⟩
  · unfold selectPending
    rw [List.length_take]
    exact Nat.min_le_left _ _
  · intro r hr
    have h1 : r ∈ sortById (s.rows.filter (fun r => r.status == "pending")) :=
      List.take_subset _ _ hr
    have h2 := mem_sortById.mp h1
    have h3 := List.mem_filter.mp h2
    simpa using h3.2
  · exact List.Pairwise.sublist (List.take_sublist _ _) (pairwise_sortById _)
  · by_cases h : (selectPending s n).isEmpty <;>
      simp [run_admin_action_worker_iteration, h]
  · by_cases h : (selectPending s n).isEmpty <;>
      simp [run_admin_action_worker_iteration, h]

def oneJson : String → Option Payload :=
  fun s => if s = "\x7b\x7d" then some [] else none

def pendingStore : Store :=
  ⟨[⟨1, "summary_all_now", none, none, "pending", none, 0, none⟩], 2⟩

/-- C6 counterexample: with one pending record the poll's batch is non-empty,
yet the iteration does not sleep: the source sleeps only in the empty-batch
branch (lines 53-55) and the loop body ends with no sleep after the for-loop. -/
theorem nonempty_batch_skips_sleep :
    (selectPending pendingStore 10).isEmpty = false ∧
    (run_admin_action_worker_iteration readyEnv oneJson pendingStore 10 7).2.2 =
      false := by
  refine ⟨by decide, by decide⟩

/-- C7: an unknown kind reaches status=error with a message naming the kind;
a missing rule_id for summary_now / ufb_sync reaches status=error with the
missing-rule_id message; and an arbitrary record `u` of the same batch still
ends at precisely its own dispatch outcome, so the failing records leave the
other queued records unaffected. -/
theorem unknown_kind_and_missing_target (env : WorkerEnv)
    (jl : String → Option Payload) (s : Store) (batch : List ActionRow)
    (t : Nat) (q r u : ActionRow)
    (hnd : (batch.map ActionRow.id).Nodup)
    (hq : q ∈ batch) (hr : r ∈ batch) (hu : u ∈ batch)
    (hqsome : (rowOf s q.id).isSome = true)
    (hrsome : (rowOf s r.id).isSome = true)
    (husome : (rowOf s u.id).isSome = true)
    (hq1 : q.action ≠ "summary_now") (hq2 : q.action ≠ "summary_all_now")
    (hq3 : q.action ≠ "ufb_sync") (hq4 : q.action ≠ "update_chats_now")
    (hrk : r.action = "summary_now" ∨ r.action = "ufb_sync")
    (hrid : r.rule_id = none) :
    statusOf (runBatch env jl s batch t).1 q.id = some "error" ∧
    errorOf (runBatch env jl s batch t).1 q.id =
      some (some (("未知 action: " ++ q.action).take 2000)) ∧
    statusOf (runBatch env jl s batch t).1 r.id = some "error" ∧
    errorOf (runBatch env jl s batch t).1 r.id =
      some (some ("rule_id 不能为空".take 2000)) ∧
    statusOf (runBatch env jl s batch t).1 u.id =
      some (outcomeStatus (recOutcome env jl u)) := by
  have hqo := runBatch_statusOf env jl batch s t q hnd hq hqsome
  have hro := runBatch_statusOf env jl batch s t r hnd hr hrsome
  have huo := runBatch_statusOf env jl batch s t u hnd hu husome
  have hqd : recOutcome env jl q = .error ("未知 action: " ++ q.action) := by
    unfold recOutcome
    rw [dispatch_action_unknown env _ _ _ hq1 hq2 hq3 hq4]
  have hrd : recOutcome env jl r = .error "rule_id 不能为空" := by
    unfold recOutcome
    rw [dispatch_action_missing_rule_id env _ _ _ hrk (Or.inl hrid)]
  refine ⟨?_, ?_, ?_, ?_, huo.1⟩
  · rw [hqo.1, hqd]; rfl
  · rw [hqo.2, hqd]; rfl
  · rw [hro.1, hrd]; rfl
  · rw [hro.2, hrd]; rfl

/-- C8: a record whose handler raises ends at status=error carrying the
exception message truncated to 2000 characters, and an arbitrary record `u`
of the same batch still ends at precisely its own dispatch outcome: the
failure does not prevent the rest of the batch from being processed (the
iteration itself is a total function of the batch, so the loop survives). -/
theorem handler_exception_marks_error (env : WorkerEnv)
    (jl : String → Option Payload) (s : Store) (batch : List ActionRow)
    (t : Nat) (q u : ActionRow) (msg : String)
    (hnd : (batch.map ActionRow.id).Nodup)
    (hq : q ∈ batch) (hu : u ∈ batch)
    (hqsome : (rowOf s q.id).isSome = true)
    (husome : (rowOf s u.id).isSome = true)
    (hraise : handlerRaises env q.action q.rule_id msg) :
    statusOf (runBatch env jl s batch t).1 q.id = some "error" ∧
    errorOf (runBatch env jl s batch t).1 q.id = some (some (msg.take 2000)) ∧
    statusOf (runBatch env jl s batch t).1 u.id =
      some (outcomeStatus (recOutcome env jl u)) ∧
    errorOf (runBatch env jl s batch t).1 u.id =
      some (outcomeError (recOutcome env jl u)) := by
  have hqo := runBatch_statusOf env jl batch s t q hnd hq hqsome
  have huo := runBatch_statusOf env jl batch s t u hnd hu husome
  have hqd : recOutcome env jl q = .error msg :=
    dispatch_action_raises env q.action q.rule_id msg _ hraise
  refine ⟨?_, ?_, huo.1, huo.2⟩
  · rw [hqo.1, hqd]; rfl
  · rw [hqo.2, hqd]; rfl

/-- C9: for summary_now / ufb_sync a present rule_id equal to 0 is treated
as missing by Python truthiness (`if not rule_id`): the record is marked
status=error with the missing-rule_id message although `some 0` is a present
column value. -/
theorem zero_rule_id_treated_missing (env : WorkerEnv) (s : Store)
    (p : Payload) (t a : Nat) (act : String)
    (hk : act = "summary_now" ∨ act = "ufb_sync")
    (hsome : (rowOf s a).isSome = true) :
    statusOf (process_one_action env s a act (some 0) p t).1 a = some "error" ∧
    errorOf (process_one_action env s a act (some 0) p t).1 a =
      some (some ("rule_id 不能为空".take 2000)) := by
  have hself := process_one_action_self env s a act (some 0) p t
  have hd : dispatch_action env act (some 0) p = (.error "rule_id 不能为空", []) :=
    dispatch_action_missing_rule_id env act (some 0) p hk (Or.inr rfl)
  obtain ⟨row, hrow⟩ := Option.isSome_iff_exists.mp hsome
  constructor
  · rw [hself.1, hd]
    unfold statusOf
    rw [hrow]
    rfl
  · rw [hself.2, hd]
    unfold errorOf
    rw [hrow]
    rfl

/-- C10: a NULL payload column, or one json.loads rejects, is silently
replaced by the empty dict (lines 61-66 fall back to the empty map), and the
dispatch outcome does not depend on the payload at all — so a malformed
payload alone never yields an error outcome. -/
theorem malformed_payload_defaults_empty (jsonLoads : String → Option Payload)
    (s : String) (env : WorkerEnv) (act : String) (rid : Option Int)
    (p1 p2 : Payload)
    (hok : jsonLoads "\x7b\x7d" = some [])
    (hbad : jsonLoads s = none) :
    resolvePayload jsonLoads none = [] ∧
    resolvePayload jsonLoads (some s) = [] ∧
    dispatch_action env act rid p1 = dispatch_action env act rid p2 := by
  refine ⟨?_, ?_, rfl⟩
  · simp [resolvePayload, pyOrStr, hok]
  · by_cases hs : s = ""
    · subst hs
      simp [resolvePayload, pyOrStr, hok]
    · simp [resolvePayload, pyOrStr, hs, hbad]

theorem lookupSig_insertSig_self (m : SigMap) (k : Nat) (v : SummarySig) :
    lookupSig (insertSig m k v) k = some v := by
  induction m with
  | nil => simp [insertSig, lookupSig]
  | cons kv rest ih =>
    unfold insertSig
    split
    · simp [lookupSig]
    · rename_i hne
      simp only [lookupSig]
      rw [if_neg hne]
      exact ih

theorem lookupSig_insertSig_ne (m : SigMap) (k k2 : Nat) (v : SummarySig)
    (h : k2 ≠ k) : lookupSig (insertSig m k v) k2 = lookupSig m k2 := by
  induction m with
  | nil =>
    simp only [insertSig, lookupSig]
    rw [if_neg (Ne.symm h)]
  | cons kv rest ih =>
    unfold insertSig
    split
    · rename_i hkv
      simp only [lookupSig]
      rw [if_neg (Ne.symm h), if_neg (show ¬ kv.1 = k2 by rw [hkv]; exact Ne.symm h)]
    · simp only [lookupSig]
      by_cases hk2 : kv.1 = k2
      · rw [if_pos hk2, if_pos hk2]
      · rw [if_neg hk2, if_neg hk2]
        exact ih

theorem sigKeys_insertSig (m : SigMap) (k : Nat) (v : SummarySig) :
    sigKeys (insertSig m k v) =
      (if k ∈ sigKeys m then sigKeys m else sigKeys m ++ [k]) := by
  induction m with
  | nil => simp [insertSig, sigKeys]
  | cons kv rest ih =>
    unfold insertSig
    split
    · rename_i hkv
      simp [sigKeys, hkv]
    · rename_i hkv
      have hkk : ¬ k = kv.1 := fun h => hkv h.symm
      by_cases hmem : k ∈ sigKeys rest
      · rw [show sigKeys (kv :: insertSig rest k v) =
            kv.1 :: sigKeys (insertSig rest k v) from rfl, ih, if_pos hmem,
          if_pos (show k ∈ sigKeys (kv :: rest) from List.mem_cons_of_mem _ hmem)]
        rfl
      · have hnotin : ¬ k ∈ sigKeys (kv :: rest) := by
          intro hmm
          rcases (show k = kv.1 ∨ k ∈ sigKeys rest from by
            simpa [sigKeys] using hmm) with h | h
          · exact hkk h
          · exact hmem h
        rw [show sigKeys (kv :: insertSig rest k v) =
            kv.1 :: sigKeys (insertSig rest k v) from rfl, ih, if_neg hmem,
          if_neg hnotin]
        rfl

theorem sigKeys_mem_insertSig (m : SigMap) (k : Nat) (v : SummarySig)
    (k2 : Nat) (h : k2 ∈ sigKeys m) : k2 ∈ sigKeys (insertSig m k v) := by
  rw [sigKeys_insertSig]
  split
  · exact h
  · exact List.mem_append_left _ h

theorem sigKeys_nodup_insertSig (m : SigMap) (k : Nat) (v : SummarySig)
    (h : (sigKeys m).Nodup) : (sigKeys (insertSig m k v)).Nodup := by
  rw [sigKeys_insertSig]
  split
  · exact h
  · rename_i hmem
    rw [List.nodup_append]
    refine ⟨h, List.nodup_singleton k, ?_⟩
    intro a ha hak
    have hak2 : a = k := by simpa using hak
    subst hak2
    exact hmem ha

theorem processRows_false_cons (m : SigMap) (row : RuleRow)
    (rest : List RuleRow) :
    processRows false m (row :: rest) =
      processRows false (insertSig m row.id (mkSignature row)) rest := rfl

theorem processRows_true_cons_skip (m : SigMap) (row : RuleRow)
    (rest : List RuleRow)
    (h : lookupSig m row.id = some (mkSignature row)) :
    processRows true m (row :: rest) = processRows true m rest := by
  simp only [processRows]
  rw [if_neg (by simp), if_pos h]

theorem processRows_true_cons_change_fst (m : SigMap) (row : RuleRow)
    (rest : List RuleRow)
    (h : ¬ lookupSig m row.id = some (mkSignature row)) :
    (processRows true m (row :: rest)).1 =
      (processRows true (insertSig m row.id (mkSignature row)) rest).1 := by
  simp only [processRows]
  rw [if_neg (by simp), if_neg h]

theorem processRows_true_cons_change_snd (m : SigMap) (row : RuleRow)
    (rest : List RuleRow)
    (h : ¬ lookupSig m row.id = some (mkSignature row)) :
    (processRows true m (row :: rest)).2 =
      (⟨row.id, pyBool row.is_summary, pyOrStr row.summary_time "00:00"⟩ :
        SchedCall) :: (processRows true (insertSig m row.id (mkSignature row)) rest).2 := by
  simp only [processRows]
  rw [if_neg (by simp), if_neg h]

theorem processRows_false_calls (rows : List RuleRow) :
    ∀ m : SigMap, (processRows false m rows).2 = [] := by
  induction rows with
  | nil => intro m; rfl
  | cons row rest ih =>
    intro m
    rw [processRows_false_cons]
    exact ih _

theorem processRows_lookup_not_mem (b : Bool) (rows : List RuleRow) :
    ∀ (m : SigMap) (k : Nat), (∀ row ∈ rows, row.id ≠ k) →
    lookupSig (processRows b m rows).1 k = lookupSig m k := by
  induction rows with
  | nil => intro m k _; rfl
  | cons row rest ih =>
    intro m k h
    have hrow : row.id ≠ k := h row (List.mem_cons_self row rest)
    have hrest : ∀ y ∈ rest, y.id ≠ k := fun y hy => h y (List.mem_cons_of_mem row hy)
    cases b with
    | false =>
      rw [processRows_false_cons, ih _ k hrest,
        lookupSig_insertSig_ne _ _ _ _ (Ne.symm hrow)]
    | true =>
      by_cases hl : lookupSig m row.id = some (mkSignature row)
      · rw [processRows_true_cons_skip _ _ _ hl, ih _ k hrest]
      · rw [processRows_true_cons_change_fst _ _ _ hl, ih _ k hrest,
          lookupSig_insertSig_ne _ _ _ _ (Ne.symm hrow)]

theorem processRows_calls_ids (b : Bool) (rows : List RuleRow) :
    ∀ (m : SigMap) (c : SchedCall), c ∈ (processRows b m rows).2 →
      c.id ∈ rows.map RuleRow.id := by
  induction rows with
  | nil => intro m c hc; exact absurd hc (List.not_mem_nil c)
  | cons row rest ih =>
    intro m c hc
    cases b with
    | false =>
      rw [processRows_false_cons] at hc
      exact List.mem_cons_of_mem _ (ih _ c hc)
    | true =>
      by_cases hl : lookupSig m row.id = some (mkSignature row)
      · rw [processRows_true_cons_skip _ _ _ hl] at hc
        exact List.mem_cons_of_mem _ (ih _ c hc)
      · rw [processRows_true_cons_change_snd _ _ _ hl] at hc
        rcases List.mem_cons.mp hc with rfl | hc2
        · exact List.mem_cons_self _ _
        · exact List.mem_cons_of_mem _ (ih _ c hc2)

theorem processRows_lookup_mem (b : Bool) (rows : List RuleRow) :
    ∀ (m : SigMap) (row : RuleRow), (rows.map RuleRow.id).Nodup → row ∈ rows →
      lookupSig (processRows b m rows).1 row.id = some (mkSignature row) := by
  induction rows with
  | nil => intro m row _ hmem; exact absurd hmem (List.not_mem_nil row)
  | cons x rest ih =>
    intro m row hnd hmem
    have hnd' : (∀ y ∈ rest, ¬ y.id = x.id) ∧ (rest.map RuleRow.id).Nodup := by
      simpa using hnd
    rcases List.mem_cons.mp hmem with hrx | hmem2
    · subst hrx
      have hrest : ∀ y ∈ rest, y.id ≠ row.id := fun y hy => hnd'.1 y hy
      cases b with
      | false =>
        rw [processRows_false_cons, processRows_lookup_not_mem false rest _ row.id hrest]
        exact lookupSig_insertSig_self _ _ _
      | true =>
        by_cases hl : lookupSig m row.id = some (mkSignature row)
        · rw [processRows_true_cons_skip _ _ _ hl,
            processRows_lookup_not_mem true rest m row.id hrest]
          exact hl
        · rw [processRows_true_cons_change_fst _ _ _ hl,
            processRows_lookup_not_mem true rest _ row.id hrest]
          exact lookupSig_insertSig_self _ _ _
    · have hxrow : ¬ row.id = x.id := hnd'.1 row hmem2
      cases b with
      | false =>
        rw [processRows_false_cons]
        exact ih _ row hnd'.2 hmem2
      | true =>
        by_cases hl : lookupSig m x.id = some (mkSignature x)
        · rw [processRows_true_cons_skip _ _ _ hl]
          exact ih _ row hnd'.2 hmem2
        · rw [processRows_true_cons_change_fst _ _ _ hl]
          exact ih _ row hnd'.2 hmem2

theorem filter_cons_false (c : SchedCall) (l : List SchedCall)
    (p : SchedCall → Bool) (h : p c = false) :
    (c :: l).filter p = l.filter p := by
  simp [List.filter_cons, h]

theorem filter_cons_true (c : SchedCall) (l : List SchedCall)
    (p : SchedCall → Bool) (h : p c = true) :
    (c :: l).filter p = c :: l.filter p := by
  simp [List.filter_cons, h]

theorem processRows_calls_changed (rows : List RuleRow) :
    ∀ (m : SigMap) (row : RuleRow), (rows.map RuleRow.id).Nodup → row ∈ rows →
      ¬ lookupSig m row.id = some (mkSignature row) →
      (processRows true m rows).2.filter (fun c => c.id == row.id) =
        [⟨row.id, pyBool row.is_summary, pyOrStr row.summary_time "00:00"⟩] := by
  induction rows with
  | nil => intro m row _ hmem _; exact absurd hmem (List.not_mem_nil row)
  | cons x rest ih =>
    intro m row hnd hmem hch
    have hnd' : (∀ y ∈ rest, ¬ y.id = x.id) ∧ (rest.map RuleRow.id).Nodup := by
      simpa using hnd
    rcases List.mem_cons.mp hmem with hrx | hmem2
    · subst hrx
      rw [processRows_true_cons_change_snd _ _ _ hch]
      have hrestnil : (processRows true (insertSig m row.id (mkSignature row))
          rest).2.filter (fun c => c.id == row.id) = [] := by
        apply List.filter_eq_nil_iff.mpr
        intro c hc
        have hcid := processRows_calls_ids true rest _ c hc
        simp only [beq_iff_eq]
        intro he
        rw [he] at hcid
        rcases List.mem_map.mp hcid with ⟨y, hy, hyid⟩
        exact hnd'.1 y hy hyid
      rw [filter_cons_true
        (⟨row.id, pyBool row.is_summary, pyOrStr row.summary_time "00:00"⟩ : SchedCall)
        _ (fun c => c.id == row.id) (by simp), hrestnil]
    · have hxrow : ¬ row.id = x.id := hnd'.1 row hmem2
      by_cases hl : lookupSig m x.id = some (mkSignature x)
      · rw [processRows_true_cons_skip _ _ _ hl]
        exact ih m row hnd'.2 hmem2 hch
      · rw [processRows_true_cons_change_snd _ _ _ hl]
        have hch2 : ¬ lookupSig (insertSig m x.id (mkSignature x)) row.id =
            some (mkSignature row) := by
          rw [lookupSig_insertSig_ne _ _ _ _ hxrow]
          exact hch
        rw [filter_cons_false
          (⟨x.id, pyBool x.is_summary, pyOrStr x.summary_time "00:00"⟩ : SchedCall)
          _ (fun c => c.id == row.id) (beq_false_of_ne (fun he => hxrow he.symm)),
          ih _ row hnd'.2 hmem2 hch2]

theorem processRows_calls_unchanged (rows : List RuleRow) :
    ∀ (m : SigMap) (row : RuleRow), (rows.map RuleRow.id).Nodup → row ∈ rows →
      lookupSig m row.id = some (mkSignature row) →
      (processRows true m rows).2.filter (fun c => c.id == row.id) = [] := by
  induction rows with
  | nil => intro m row _ _ _; rfl
  | cons x rest ih =>
    intro m row hnd hmem hl
    have hnd' : (∀ y ∈ rest, ¬ y.id = x.id) ∧ (rest.map RuleRow.id).Nodup := by
      simpa using hnd
    rcases List.mem_cons.mp hmem with hrx | hmem2
    · subst hrx
      rw [processRows_true_cons_skip _ _ _ hl]
      apply List.filter_eq_nil_iff.mpr
      intro c hc
      have hcid := processRows_calls_ids true rest _ c hc
      simp only [beq_iff_eq]
      intro he
      rw [he] at hcid
      rcases List.mem_map.mp hcid with ⟨y, hy, hyid⟩
      exact hnd'.1 y hy hyid
    · have hxrow : ¬ row.id = x.id := hnd'.1 row hmem2
      by_cases hlx : lookupSig m x.id = some (mkSignature x)
      · rw [processRows_true_cons_skip _ _ _ hlx]
        exact ih m row hnd'.2 hmem2 hl
      · rw [processRows_true_cons_change_snd _ _ _ hlx]
        have hl2 : lookupSig (insertSig m x.id (mkSignature x)) row.id =
            some (mkSignature row) := by
          rw [lookupSig_insertSig_ne _ _ _ _ hxrow]
          exact hl
        rw [filter_cons_false
          (⟨x.id, pyBool x.is_summary, pyOrStr x.summary_time "00:00"⟩ : SchedCall)
          _ (fun c => c.id == row.id) (beq_false_of_ne (fun he => hxrow he.symm)),
          ih _ row hnd'.2 hmem2 hl2]

theorem processRows_keys_mem (b : Bool) (rows : List RuleRow) :
    ∀ (m : SigMap) (k : Nat), k ∈ sigKeys m →
      k ∈ sigKeys (processRows b m rows).1 := by
  induction rows with
  | nil => intro m k h; exact h
  | cons row rest ih =>
    intro m k h
    cases b with
    | false =>
      rw [processRows_false_cons]
      exact ih _ k (sigKeys_mem_insertSig _ _ _ _ h)
    | true =>
      by_cases hl : lookupSig m row.id = some (mkSignature row)
      · rw [processRows_true_cons_skip _ _ _ hl]
        exact ih _ k h
      · rw [processRows_true_cons_change_fst _ _ _ hl]
        exact ih _ k (sigKeys_mem_insertSig _ _ _ _ h)

theorem processRows_keys_nodup (b : Bool) (rows : List RuleRow) :
    ∀ m : SigMap, (sigKeys m).Nodup →
      (sigKeys (processRows b m rows).1).Nodup := by
  induction rows with
  | nil => intro m h; exact h
  | cons row rest ih =>
    intro m h
    cases b with
    | false =>
      rw [processRows_false_cons]
      exact ih _ (sigKeys_nodup_insertSig _ _ _ h)
    | true =>
      by_cases hl : lookupSig m row.id = some (mkSignature row)
      · rw [processRows_true_cons_skip _ _ _ hl]
        exact ih _ h
      · rw [processRows_true_cons_change_fst _ _ _ hl]
        exact ih _ (sigKeys_nodup_insertSig _ _ _ h)

theorem lookupSig_filter_not_contains (m : SigMap) (ids : List Nat) (k : Nat)
    (h : ids.contains k = false) :
    lookupSig (m.filter (fun kv => ids.contains kv.1)) k = none := by
  induction m with
  | nil => rfl
  | cons kv rest ih =>
    rw [List.filter_cons]
    by_cases hc : ids.contains kv.1 = true
    · rw [if_pos hc]
      have hk : kv.1 ≠ k := by
        intro he
        rw [he] at hc
        rw [hc] at h
        exact Bool.noConfusion h
      simp only [lookupSig]
      rw [if_neg hk]
      exact ih
    · rw [if_neg hc]
      exact ih

theorem lookupSig_filter_contains (m : SigMap) (ids : List Nat) (k : Nat)
    (h : ids.contains k = true) :
    lookupSig (m.filter (fun kv => ids.contains kv.1)) k = lookupSig m k := by
  induction m with
  | nil => rfl
  | cons kv rest ih =>
    rw [List.filter_cons]
    by_cases hc : ids.contains kv.1 = true
    · rw [if_pos hc]
      simp only [lookupSig]
      by_cases hk : kv.1 = k
      · rw [if_pos hk, if_pos hk]
      · rw [if_neg hk, if_neg hk]
        exact ih
    · rw [if_neg hc]
      have hk : kv.1 ≠ k := by
        intro he
        rw [he] at hc
        exact hc h
      rw [ih]
      simp only [lookupSig]
      rw [if_neg hk]

theorem filter_map_calls (q : Nat → Bool) (R : Nat) (l : List Nat)
    (hnd : l.Nodup) :
    (((l.filter q).map (fun k => (⟨k, false, "00:00"⟩ : SchedCall))).filter
        (fun c => c.id == R)) =
      (if R ∈ l ∧ q R = true then [(⟨R, false, "00:00"⟩ : SchedCall)] else []) := by
  induction l with
  | nil => simp
  | cons x rest ih =>
    have hnd' := List.nodup_cons.mp hnd
    have ihr := ih hnd'.2
    rw [List.filter_cons]
    by_cases hq : q x = true
    · rw [if_pos hq, List.map_cons]
      by_cases hx : x = R
      · subst hx
        rw [filter_cons_true (⟨x, false, "00:00"⟩ : SchedCall) _
            (fun c => c.id == x) (by simp), ihr,
          if_neg (fun hand => hnd'.1 hand.1),
          if_pos ⟨List.mem_cons_self x rest, hq⟩]
      · rw [filter_cons_false (⟨x, false, "00:00"⟩ : SchedCall) _
            (fun c => c.id == R) (beq_false_of_ne hx), ihr]
        have hiff : (R ∈ rest ∧ q R = true) ↔ (R ∈ x :: rest ∧ q R = true) := by
          constructor
          · rintro ⟨h1, h2⟩
            exact ⟨List.mem_cons_of_mem x h1, h2⟩
          · rintro ⟨h1, h2⟩
            rcases List.mem_cons.mp h1 with rfl | h1'
            · exact absurd rfl hx
            · exact ⟨h1', h2⟩
        rw [if_congr hiff rfl rfl]
    · have hq' : q x = false := by
        cases hqq : q x
        · rfl
        · exact absurd hqq hq
      rw [if_neg (by rw [hq']; exact Bool.noConfusion), ihr]
      have hiff : (R ∈ rest ∧ q R = true) ↔ (R ∈ x :: rest ∧ q R = true) := by
        constructor
        · rintro ⟨h1, h2⟩
          exact ⟨List.mem_cons_of_mem x h1, h2⟩
        · rintro ⟨h1, h2⟩
          rcases List.mem_cons.mp h1 with rfl | h1'
          · rw [h2] at hq'
            exact Bool.noConfusion hq'
          · exact ⟨h1', h2⟩
      rw [if_congr hiff rfl rfl]

theorem removalPhase_calls_absent (last : SigMap) (currentIds tasks : List Nat)
    (R : Nat) (hR : currentIds.contains R = true) :
    (removalPhase true last currentIds tasks).2.filter
      (fun c => c.id == R) = [] := by
  apply List.filter_eq_nil_iff.mpr
  intro c hc
  have hc2 : c ∈ (((sigKeys last).filter (fun k => !(currentIds.contains k))).filter
      (fun k => tasks.contains k)).map
      (fun k => (⟨k, false, "00:00"⟩ : SchedCall)) := hc
  rcases List.mem_map.mp hc2 with ⟨k, hk, rfl⟩
  simp only [beq_iff_eq]
  intro he
  have hk1 := (List.mem_filter.mp (List.mem_filter.mp hk).1).2
  rw [he, hR] at hk1
  exact Bool.noConfusion hk1

/-- C3: on the very first reconciliation cycle after process start
(initialized still false) the watcher records every read row's signature as a
baseline and issues zero schedule_rule calls, regardless of how many rules
are configured and of their field values. -/
theorem bootstrap_cycle_issues_no_calls (st : WatcherState)
    (rows : List RuleRow) (tasks : List Nat) (row : RuleRow)
    (hboot : st.bootDone = false)
    (hnd : (rows.map RuleRow.id).Nodup) :
    (watch_summary_settings_cycle st rows tasks).2 = [] ∧
    (row ∈ rows →
      lookupSig (watch_summary_settings_cycle st rows tasks).1.last row.id =
        some (mkSignature row)) := by
  obtain ⟨last, bd⟩ := st
  have hbd : bd = false := hboot
  subst hbd
  constructor
  · show (processRows false last rows).2 ++
      (removalPhase false (processRows false last rows).1
        (rows.map RuleRow.id) tasks).2 = []
    rw [processRows_false_calls rows last]
    rfl
  · intro hmem
    show lookupSig (processRows false last rows).1 row.id = some (mkSignature row)
    exact processRows_lookup_mem false rows last row hnd hmem

/-- C4: the first post-bootstrap cycle that reads a new or changed signature
for rule `row` calls schedule_rule for it exactly once, carrying the newly
read enabled flag and fire time (the source defaults a falsy fire time to
"00:00" in the call), and updates the last-known map; a subsequent cycle
reading the same unchanged row issues no call for it. -/
theorem reconcile_change_schedules_once (st : WatcherState)
    (rows rows2 : List RuleRow) (tasks tasks2 : List Nat) (row : RuleRow)
    (hboot : st.bootDone = true)
    (hnd : (rows.map RuleRow.id).Nodup) (hmem : row ∈ rows)
    (hch : ¬ lookupSig st.last row.id = some (mkSignature row))
    (hnd2 : (rows2.map RuleRow.id).Nodup) (hmem2 : row ∈ rows2) :
    (watch_summary_settings_cycle st rows tasks).2.filter
        (fun c => c.id == row.id) =
      [⟨row.id, pyBool row.is_summary, pyOrStr row.summary_time "00:00"⟩] ∧
    lookupSig (watch_summary_settings_cycle st rows tasks).1.last row.id =
      some (mkSignature row) ∧
    (watch_summary_settings_cycle
        (watch_summary_settings_cycle st rows tasks).1 rows2 tasks2).2.filter
      (fun c => c.id == row.id) = [] := by
  obtain ⟨last, bd⟩ := st
  have hbd : bd = true := hboot
  subst hbd
  have hch' : ¬ lookupSig last row.id = some (mkSignature row) := hch
  have hcont : (rows.map RuleRow.id).contains row.id = true :=
    List.elem_iff.mpr (List.mem_map_of_mem RuleRow.id hmem)
  have h2 : lookupSig ((processRows true last rows).1.filter
      (fun kv => (rows.map RuleRow.id).contains kv.1)) row.id =
      some (mkSignature row) := by
    rw [lookupSig_filter_contains _ _ _ hcont]
    exact processRows_lookup_mem true rows last row hnd hmem
  refine ⟨?_, h2, ?_⟩
  · show ((processRows true last rows).2 ++
      (removalPhase true (processRows true last rows).1
        (rows.map RuleRow.id) tasks).2).filter (fun c => c.id == row.id) = _
    rw [List.filter_append,
      processRows_calls_changed rows last row hnd hmem hch',
      removalPhase_calls_absent _ _ _ _ hcont]
    rfl
  · have hcont2 : (rows2.map RuleRow.id).contains row.id = true :=
      List.elem_iff.mpr (List.mem_map_of_mem RuleRow.id hmem2)
    show ((processRows true ((processRows true last rows).1.filter
        (fun kv => (rows.map RuleRow.id).contains kv.1)) rows2).2 ++
      (removalPhase true (processRows true ((processRows true last rows).1.filter
          (fun kv => (rows.map RuleRow.id).contains kv.1)) rows2).1
        (rows2.map RuleRow.id) tasks2).2).filter (fun c => c.id == row.id) = []
    rw [List.filter_append,
      processRows_calls_unchanged rows2 _ row hnd2 hmem2 h2,
      removalPhase_calls_absent _ _ _ _ hcont2]
    rfl

/-- C5: a post-bootstrap cycle that reads a configuration not containing the
tracked rule R pops R from the last-known map — it is no longer tracked — and
issues exactly one disabling schedule_rule call for R exactly when
scheduler.tasks currently holds a job for R. -/
theorem reconcile_removal_cancels (st : WatcherState) (rows : List RuleRow)
    (tasks : List Nat) (R : Nat)
    (hboot : st.bootDone = true)
    (hkeys : (sigKeys st.last).Nodup)
    (hin : R ∈ sigKeys st.last)
    (hout : R ∉ rows.map RuleRow.id) :
    lookupSig (watch_summary_settings_cycle st rows tasks).1.last R = none ∧
    (watch_summary_settings_cycle st rows tasks).2.filter (fun c => c.id == R) =
      (if tasks.contains R = true then [(⟨R, false, "00:00"⟩ : SchedCall)]
        else []) := by
  obtain ⟨last, bd⟩ := st
  have hbd : bd = true := hboot
  subst hbd
  have hkeys' : (sigKeys last).Nodup := hkeys
  have hin' : R ∈ sigKeys last := hin
  have hb : (rows.map RuleRow.id).contains R = false := by
    cases hcc : (rows.map RuleRow.id).contains R
    · rfl
    · exact absurd (List.elem_iff.mp hcc) hout
  have hk1 : R ∈ sigKeys (processRows true last rows).1 :=
    processRows_keys_mem true rows last R hin'
  have hknd : (sigKeys (processRows true last rows).1).Nodup :=
    processRows_keys_nodup true rows last hkeys'
  constructor
  · show lookupSig ((processRows true last rows).1.filter
        (fun kv => (rows.map RuleRow.id).contains kv.1)) R = none
    exact lookupSig_filter_not_contains _ _ _ hb
  · show ((processRows true last rows).2 ++
      (removalPhase true (processRows true last rows).1
        (rows.map RuleRow.id) tasks).2).filter (fun c => c.id == R) = _
    rw [List.filter_append]
    have hpnil : (processRows true last rows).2.filter
        (fun c => c.id == R) = [] := by
      apply List.filter_eq_nil_iff.mpr
      intro c hc
      have hcid := processRows_calls_ids true rows last c hc
      simp only [beq_iff_eq]
      intro he
      rw [he] at hcid
      exact hout hcid
    rw [hpnil]
    have hremoved : (removalPhase true (processRows true last rows).1
        (rows.map RuleRow.id) tasks).2 =
        ((((sigKeys (processRows true last rows).1).filter
          (fun k => !((rows.map RuleRow.id).contains k))).filter
          (fun k => tasks.contains k)).map
          (fun k => (⟨k, false, "00:00"⟩ : SchedCall))) := rfl
    rw [hremoved]
    have hlnd : ((sigKeys (processRows true last rows).1).filter
        (fun k => !((rows.map RuleRow.id).contains k))).Nodup :=
      List.Nodup.filter _ hknd
    have hRl : R ∈ (sigKeys (processRows true last rows).1).filter
        (fun k => !((rows.map RuleRow.id).contains k)) := by
      apply List.mem_filter.mpr
      refine ⟨hk1, ?_⟩
      show (!((rows.map RuleRow.id).contains R)) = true
      rw [hb]
      rfl
    rw [filter_map_calls (fun k => tasks.contains k) R _ hlnd]
    rw [if_congr (Iff.intro (fun h => h.2) (fun h => ⟨hRl, h⟩)) rfl rfl]
    exact List.nil_append _

/-- One concrete rule row for the reconciliation witnesses. -/
def wRow : RuleRow := ⟨7, some true, some "09:00", none, some false⟩

/-- C3 witness: one configured rule, first cycle: no calls and a recorded
baseline. -/
theorem bootstrap_cycle_issues_no_calls_witness :
    (watch_summary_settings_cycle ⟨[], false⟩ [wRow] []).2 = [] ∧
    (wRow ∈ [wRow] →
      lookupSig (watch_summary_settings_cycle ⟨[], false⟩ [wRow] []).1.last
        wRow.id = some (mkSignature wRow)) :=
  bootstrap_cycle_issues_no_calls ⟨[], false⟩ [wRow] [] wRow rfl (by decide)

/-- C4 witness: rule 7 unseen then declared enabled at "09:00": the first
post-bootstrap cycle calls schedule_rule once for it; a repeat cycle with the
unchanged row calls nothing for it. -/
theorem reconcile_change_schedules_once_witness :
    (watch_summary_settings_cycle ⟨[], true⟩ [wRow] []).2.filter
        (fun c => c.id == wRow.id) =
      [⟨wRow.id, pyBool wRow.is_summary, pyOrStr wRow.summary_time "00:00"⟩] ∧
    lookupSig (watch_summary_settings_cycle ⟨[], true⟩ [wRow] []).1.last
      wRow.id = some (mkSignature wRow) ∧
    (watch_summary_settings_cycle
        (watch_summary_settings_cycle ⟨[], true⟩ [wRow] []).1 [wRow] []).2.filter
      (fun c => c.id == wRow.id) = [] :=
  reconcile_change_schedules_once ⟨[], true⟩ [wRow] [wRow] [] [] wRow rfl
    (by decide) (by decide) (by decide) (by decide) (by decide)

/-- C5 witness: rule 7 tracked and scheduled, then absent from the read: one
disabling call, no longer tracked. -/
theorem reconcile_removal_cancels_witness :
    lookupSig (watch_summary_settings_cycle
      ⟨[(7, mkSignature wRow)], true⟩ [] [7]).1.last 7 = none ∧
    (watch_summary_settings_cycle
        ⟨[(7, mkSignature wRow)], true⟩ [] [7]).2.filter (fun c => c.id == 7) =
      (if ([7] : List Nat).contains 7 = true
        then [(⟨7, false, "00:00"⟩ : SchedCall)] else []) :=
  reconcile_removal_cancels ⟨[(7, mkSignature wRow)], true⟩ [] [7] 7 rfl
    (by decide) (by decide) (by decide)

def qRow : ActionRow := ⟨1, "bogus", none, none, "pending", none, 0, none⟩

def rRow : ActionRow := ⟨2, "summary_now", none, none, "pending", none, 0, none⟩

def uRow : ActionRow := ⟨3, "summary_all_now", none, none, "pending", none, 0, none⟩

def wStore : Store := ⟨[qRow, rRow, uRow], 4⟩

/-- C7 witness: one unknown-kind record and one missing-rule_id record error
out with their messages while a third record still reaches its own outcome. -/
theorem unknown_kind_and_missing_target_witness :
    statusOf (runBatch readyEnv oneJson wStore [qRow, rRow, uRow] 5).1 qRow.id =
      some "error" ∧
    errorOf (runBatch readyEnv oneJson wStore [qRow, rRow, uRow] 5).1 qRow.id =
      some (some (("未知 action: " ++ qRow.action).take 2000)) ∧
    statusOf (runBatch readyEnv oneJson wStore [qRow, rRow, uRow] 5).1 rRow.id =
      some "error" ∧
    errorOf (runBatch readyEnv oneJson wStore [qRow, rRow, uRow] 5).1 rRow.id =
      some (some ("rule_id 不能为空".take 2000)) ∧
    statusOf (runBatch readyEnv oneJson wStore [qRow, rRow, uRow] 5).1 uRow.id =
      some (outcomeStatus (recOutcome readyEnv oneJson uRow)) :=
  unknown_kind_and_missing_target readyEnv oneJson wStore [qRow, rRow, uRow] 5
    qRow rRow uRow (by decide) (by decide) (by decide) (by decide)
    (by decide) (by decide) (by decide)
    (by decide) (by decide) (by decide) (by decide)
    (Or.inl rfl) rfl

def failEnv : WorkerEnv :=
  ⟨true, true, true, true, fun _ => .ok, .raises "boom", fun _ => .ok, .ok⟩

def q8Row : ActionRow := ⟨1, "summary_all_now", none, none, "pending", none, 0, none⟩

def u8Row : ActionRow := ⟨2, "update_chats_now", none, none, "pending", none, 0, none⟩

def w8Store : Store := ⟨[q8Row, u8Row], 3⟩

/-- C8 witness: a raising summary_all_now handler yields status=error with
the truncated message while the next record still reaches its own outcome. -/
theorem handler_exception_marks_error_witness :
    statusOf (runBatch failEnv oneJson w8Store [q8Row, u8Row] 5).1 q8Row.id =
      some "error" ∧
    errorOf (runBatch failEnv oneJson w8Store [q8Row, u8Row] 5).1 q8Row.id =
      some (some ("boom".take 2000)) ∧
    statusOf (runBatch failEnv oneJson w8Store [q8Row, u8Row] 5).1 u8Row.id =
      some (outcomeStatus (recOutcome failEnv oneJson u8Row)) ∧
    errorOf (runBatch failEnv oneJson w8Store [q8Row, u8Row] 5).1 u8Row.id =
      some (outcomeError (recOutcome failEnv oneJson u8Row)) :=
  handler_exception_marks_error failEnv oneJson w8Store [q8Row, u8Row] 5
    q8Row u8Row "boom" (by decide) (by decide) (by decide) (by decide)
    (by decide) (Or.inr (Or.inl ⟨rfl, rfl, rfl⟩))

def w9Store : Store :=
  ⟨[⟨1, "ufb_sync", some 0, none, "pending", none, 0, none⟩], 2⟩

/-- C9 witness: a ufb_sync record with rule_id = 0 errors out with the
missing-rule_id message. -/
theorem zero_rule_id_treated_missing_witness :
    statusOf (process_one_action readyEnv w9Store 1 "ufb_sync" (some 0) [] 5).1 1 =
      some "error" ∧
    errorOf (process_one_action readyEnv w9Store 1 "ufb_sync" (some 0) [] 5).1 1 =
      some (some ("rule_id 不能为空".take 2000)) :=
  zero_rule_id_treated_missing readyEnv w9Store [] 5 1 "ufb_sync" (Or.inr rfl)
    (by decide)

/-- C10 witness: NULL and an unparsable payload both resolve to the empty
dict, and two different payloads dispatch identically. -/
theorem malformed_payload_defaults_empty_witness :
    resolvePayload oneJson none = [] ∧
    resolvePayload oneJson (some "oops") = [] ∧
    dispatch_action readyEnv "summary_now" none [("a", "b")] =
      dispatch_action readyEnv "summary_now" none [] :=
  malformed_payload_defaults_empty oneJson "oops" readyEnv "summary_now" none
    [("a", "b")] [] (by decide) (by decide)

end TGF
